import Mathlib

/-!
# Verification of the RadarChart layout engine

Shallow embedding of the layout computations of `src/RadarPie/RadarPie.ts` and
`src/RadarPie/RadarSegment.ts` (szerintedmi/RadarChart).

Modelling conventions:
* Numbers are exact rationals (`ℚ`).  The source computes with JS doubles; all
  the layout arithmetic embedded here is +, -, *, / on configuration values and
  item counts, which we model exactly.  The one place where the JS special
  values matter (division by zero in the ring opacity formula) is modelled with
  an explicit `JSNum` type carrying `NaN` and the infinities.
* Angles are measured in degrees.  The source converts configured degrees to
  radians through `degToRad` (from `src/geometricUtils.ts`, not included in the
  sources; the spec fixes it as the degrees-to-radians conversion
  `x * π / 180`, a strictly monotone linear rescaling), so every comparison and
  every affine angle computation of the source is preserved exactly when
  carried out in degree units.
* Label positions involve `Math.cos` / `Math.sin`; those are embedded over `ℝ`
  with `Real.cos` / `Real.sin` in a dedicated section, angles there in radians.
-/

namespace RadarChart

/-- Horizontal text anchor: the values `"middle"`, `"start"` and `"end"` of
`TextPlacement.hAnchor` in `RadarPie.ts` (`hend` stands for the string
`"end"`, which is a Lean keyword). -/
inductive HAnchor where
  | middle
  | hstart
  | hend
deriving DecidableEq

/-- Vertical text anchor: the values of `TextPlacement.vAnchor` that
`calculateAnchorPlacement` actually produces: `"baseline"`, `"hanging"`,
`"middle"`. -/
inductive VAnchor where
  | baseline
  | hanging
  | middle
deriving DecidableEq

/-- `TextPlacement` from `RadarPie.ts`. -/
structure TextPlacement where
  hAnchor : HAnchor
  vAnchor : VAnchor
deriving DecidableEq

/-- `H_CUT_OFF_DEGREE` from `RadarPie.calculateAnchorPlacement`. -/
def H_CUT_OFF_DEGREE : ℚ := 10

/-- `V_CUT_OFF_DEGREE` from `RadarPie.calculateAnchorPlacement`. -/
def V_CUT_OFF_DEGREE : ℚ := 45

/-- The horizontal anchor chain of `RadarPie.calculateAnchorPlacement`
(RadarPie.ts lines 408-418), in degree units.  `none` models the
`throw new Error("Invalid rads for horizontal ...")` branch. -/
def hAnchorOf (rads : ℚ) : Option HAnchor :=
  if 360 - H_CUT_OFF_DEGREE < rads ∨ rads < H_CUT_OFF_DEGREE then some HAnchor.middle
  else if 180 - H_CUT_OFF_DEGREE < rads ∧ rads < 180 + H_CUT_OFF_DEGREE then some HAnchor.middle
  else if H_CUT_OFF_DEGREE ≤ rads ∧ rads ≤ 180 - H_CUT_OFF_DEGREE then some HAnchor.hstart
  else if 180 + H_CUT_OFF_DEGREE ≤ rads ∧ rads ≤ 360 - H_CUT_OFF_DEGREE then some HAnchor.hend
  else none

/-- The vertical anchor chain of `RadarPie.calculateAnchorPlacement`
(RadarPie.ts lines 420-431), in degree units.  `none` models the
`throw new Error("Invalid rads for vertical ...")` branch. -/
def vAnchorOf (rads : ℚ) : Option VAnchor :=
  if 360 - V_CUT_OFF_DEGREE < rads ∨ rads < V_CUT_OFF_DEGREE then some VAnchor.baseline
  else if 180 - V_CUT_OFF_DEGREE < rads ∧ rads < 180 + V_CUT_OFF_DEGREE then some VAnchor.hanging
  else if V_CUT_OFF_DEGREE ≤ rads ∧ rads ≤ 180 - V_CUT_OFF_DEGREE then some VAnchor.middle
  else if 180 + V_CUT_OFF_DEGREE ≤ rads ∧ rads ≤ 360 - V_CUT_OFF_DEGREE then some VAnchor.middle
  else none

/-- The `rads` computation at the top of `calculateAnchorPlacement`
(RadarPie.ts lines 404-405).  The JS test `if (!endAngle)` is true both for a
missing argument and for the value `0`, hence the extra `e = 0` case. -/
def calcMidRads (startOrMidAngle : ℚ) (endAngle : Option ℚ) : ℚ :=
  match endAngle with
  | none => startOrMidAngle
  | some e => if e = 0 then startOrMidAngle else (e - startOrMidAngle) / 2 + startOrMidAngle

/-- `RadarPie.calculateAnchorPlacement` (RadarPie.ts lines 398-435), in degree
units.  The horizontal chain is evaluated first, matching the order in which
the source would throw. -/
def calculateAnchorPlacement (startOrMidAngle : ℚ) (endAngle : Option ℚ) : Option TextPlacement :=
  let rads := calcMidRads startOrMidAngle endAngle
  match hAnchorOf rads with
  | none => none
  | some h =>
    match vAnchorOf rads with
    | none => none
    | some v => some { hAnchor := h, vAnchor := v }

end RadarChart

namespace RadarChart

/-- A JS double restricted to the values arising in the ring opacity
computation: a finite (rational) number, `NaN`, or a signed infinity. -/
inductive JSNum where
  | fin : ℚ → JSNum
  | nan : JSNum
  | posInf : JSNum
  | negInf : JSNum
deriving DecidableEq

/-- JS division of two finite numbers: division by zero yields `NaN` (for a
zero numerator) or a signed infinity. -/
def jsDiv (a b : ℚ) : JSNum :=
  if b = 0 then
    if a = 0 then JSNum.nan else if 0 < a then JSNum.posInf else JSNum.negInf
  else JSNum.fin (a / b)

/-- JS addition of a (possibly special) number and a finite number. -/
def jsAddFin : JSNum → ℚ → JSNum
  | JSNum.fin a, b => JSNum.fin (a + b)
  | JSNum.nan, _ => JSNum.nan
  | JSNum.posInf, _ => JSNum.posInf
  | JSNum.negInf, _ => JSNum.negInf

/-- The ring opacity expression of the `RadarPie` constructor (RadarPie.ts
lines 166-170):
`(ringMaxOpacity - ringMinOpacity) * (rings.length - ringLevel - 1) / (rings.length - 1) + ringMinOpacity`,
with JS division semantics (so that `rings.length = 1` is modelled
faithfully). -/
def ringOpacity (ringMaxOpacity ringMinOpacity : ℚ) (ringCount ringLevel : ℕ) : JSNum :=
  jsAddFin
    (jsDiv ((ringMaxOpacity - ringMinOpacity) * ((ringCount : ℚ) - (ringLevel : ℚ) - 1))
      ((ringCount : ℚ) - 1))
    ringMinOpacity

/-- `RadarPieConfig` (RadarPie.ts lines 18-39), restricted to the numeric
fields used by the layout computations embedded here. -/
structure RadarPieConfig where
  outerRadius : ℚ
  innerRadius : ℚ
  minSubSliceAngle : ℚ
  subSlicePadAngle : ℚ
  sliceDividerOutFlowLength : ℚ
  sliceLabelDistance : ℚ
  subSliceLabelDistance : ℚ
  sliceLabelPadding : ℚ
  subSliceLabelPadding : ℚ
  minRingRadius : ℚ
  ringPadding : ℚ
  ringMinOpacity : ℚ
  ringMaxOpacity : ℚ
deriving DecidableEq

/-- `DEFAULT_RADAR_PIE_CONFIG` (RadarPie.ts lines 41-62). -/
def DEFAULT_RADAR_PIE_CONFIG : RadarPieConfig :=
  { outerRadius := 250
    innerRadius := 0
    minSubSliceAngle := 12
    subSlicePadAngle := 1/5
    minRingRadius := 30
    ringPadding := 0
    ringMinOpacity := 1/5
    ringMaxOpacity := 1
    sliceDividerOutFlowLength := 0
    sliceLabelDistance := 60
    subSliceLabelDistance := 10
    sliceLabelPadding := 4
    subSliceLabelPadding := 2 }

end RadarChart

namespace RadarChart

/-- Number of already-clamped entries of the scaler working state (an entry is
a weight paired with its clamped flag). -/
def clampedCount (items : List (ℚ × Bool)) : ℕ :=
  (items.filter (fun it => it.2)).length

/-- Sum of the weights still in the proportional pool (the unclamped ones). -/
def poolSum (items : List (ℚ × Bool)) : ℚ :=
  ((items.filter (fun it => !it.2)).map Prod.fst).sum

/-- Proportional share of weight `w` out of pool sum `sumW` of the remaining
budget `budget`. -/
def scaleShare (sumW budget w : ℚ) : ℚ :=
  w / sumW * budget

/-- Modelled from the spec: one clamping round of the Proportional Scaler of
§4.1 (the function `scaleProportional` lives in `src/utils.ts`, which is not
among the included sources; only its call sites in `RadarPie.ts` are).  Spec
§4.1: repeatedly clamp the items whose proportional share of the remaining
budget falls below the floor, remove them from the weighted pool and shrink
the budget by `minimum` for each clamped item, until no further item falls
below the floor (then non-clamped items receive their share, clamped ones the
floor) or all items are clamped.  `fuel` bounds the number of rounds; each
recursive call clamps at least one further item, so `length + 1` rounds always
suffice. -/
def scaleLoop (total minimum : ℚ) : ℕ → List (ℚ × Bool) → List ℚ
  | 0, items => items.map (fun _ => minimum)
  | fuel + 1, items =>
    let sumW := poolSum items
    let budget := total - minimum * (clampedCount items : ℚ)
    if items.any (fun it => !it.2 && decide (scaleShare sumW budget it.1 < minimum)) then
      scaleLoop total minimum fuel
        (items.map (fun it =>
          if !it.2 && decide (scaleShare sumW budget it.1 < minimum) then (it.1, true) else it))
    else
      items.map (fun it => if it.2 then minimum else scaleShare sumW budget it.1)

/-- Modelled from the spec: `scaleProportional` of `src/utils.ts` (not among
the included sources), per spec §4.1: map non-negative weights to magnitudes
within a `total` budget with a per-item floor of `minimum`, by the iterative
clamp-and-redistribute fixed point of `scaleLoop`. -/
def scaleProportional (weights : List ℚ) (total minimum : ℚ) : List ℚ :=
  scaleLoop total minimum (weights.length + 1) (weights.map (fun w => (w, false)))

/-- One arc produced by `d3.pie()`: the fields of the d3 arc datum used by
`RadarPie.ts` (`value`, `startAngle`, `endAngle`, `padAngle`), in degree
units. -/
structure PieArc where
  value : ℚ
  startAngle : ℚ
  endAngle : ℚ
  padAngle : ℚ
deriving DecidableEq

/-- The arc-emitting loop of d3-shape's `pie()` (external library dependency
of `RadarPie.ts`): starting from accumulated angle `a0`, each value `v` is
turned into an arc spanning `(if 0 < v then v * k else 0) + p`, where `k` is
the angle-per-value factor and `p` the effective pad angle. -/
def d3PieGo (k p : ℚ) : ℚ → List ℚ → List PieArc
  | _, [] => []
  | a0, v :: rest =>
    let a1 := a0 + (if 0 < v then v * k else 0) + p
    { value := v, startAngle := a0, endAngle := a1, padAngle := p } :: d3PieGo k p a1 rest

/-- d3-shape's `pie()` generator with `.sort(null)` (input order preserved),
default start angle `0` and default end angle of a full turn, as configured in
the `RadarPie` constructor (RadarPie.ts lines 187-195), in degree units: the
effective pad `p` is `min(fullTurn / n, padAngle)`, only strictly positive
values enter the value sum, and the angle-per-value factor is
`(fullTurn - n * p) / sum` (or `0` when the sum is `0`). -/
def d3Pie (values : List ℚ) (padAngle : ℚ) : List PieArc :=
  let n : ℚ := (values.length : ℚ)
  let sumPos := (values.filter (fun v => decide (0 < v))).sum
  let p := min (360 / n) padAngle
  let k := if sumPos = 0 then 0 else (360 - n * p) / sumPos
  d3PieGo k p 0 values

/-- The sub-slice angular layout stage of the `RadarPie` constructor
(RadarPie.ts lines 181-195): item counts are proportionally scaled to a 360°
budget with floor `minSubSliceAngle`, then fed to `d3.pie()` with pad angle
`subSlicePadAngle` (both in degrees). -/
def subSliceAngles (itemCounts : List ℕ) (minSubSliceAngle subSlicePadAngle : ℚ) : List PieArc :=
  d3Pie (scaleProportional (itemCounts.map (fun c : ℕ => (c : ℚ))) 360 minSubSliceAngle)
    subSlicePadAngle

/-- `d3.DefaultArcObject` as stored into `subSlice.arcParams` and
`segment.arcParams` by the `RadarPie` constructor, angles in degrees. -/
structure ArcParams where
  startAngle : ℚ
  endAngle : ℚ
  padAngle : ℚ
  innerRadius : ℚ
  outerRadius : ℚ
deriving DecidableEq

/-- `RingInfo` of `RadarPie.ts` (lines 119-123): a ring's `CatInfo` core plus
the computed fields, which are absent (`none`) before the constructor fills
them. -/
structure RingInfo where
  id : String
  itemCount : ℕ
  opacity : Option JSNum
  innerRadius : Option ℚ
  radius : Option ℚ
deriving DecidableEq

/-- `RadarItem` of `RadarPie.ts` (lines 68-71): an item with its group id and
the optional position filled in by `RadarSegment`. -/
structure ItemQ where
  groupId : String
  x : Option ℚ
  y : Option ℚ
deriving DecidableEq

/-- `Segment` of `RadarPie.ts` (lines 103-106). -/
structure SegmentQ where
  ringId : String
  ringLevel : ℕ
  items : List ItemQ
  arcParams : Option ArcParams
deriving DecidableEq

/-- `SubSlice` of `RadarPie.ts` (lines 108-112); the trigonometric `labelData`
is modelled separately over `ℝ` (see `sliceLabelGeom`). -/
structure SubSliceQ where
  id : String
  sliceId : String
  itemCount : ℕ
  isDummy : Bool
  segments : List SegmentQ
  arcParams : Option ArcParams
deriving DecidableEq

/-- `Slice` of `RadarPie.ts` (lines 114-117), again without the trigonometric
`labelData`. -/
structure SliceQ where
  id : String
  label : String
  subSlices : List SubSliceQ
deriving DecidableEq

/-- `CatInfoSubSlice`: an entry of the flat `radarContent.subSlices` list that
drives the pie generator. -/
structure CatInfoSubSlice where
  id : String
  sliceId : String
  itemCount : ℕ
deriving DecidableEq

/-- `RadarContent` of `RadarPie.ts` (lines 125-131), restricted to the parts
the layout computations touch (`groups` only feeds the item marker). -/
structure RadarContentQ where
  slices : List SliceQ
  subSlices : List CatInfoSubSlice
  rings : List RingInfo
deriving DecidableEq

/-- `availableRadius` of the `RadarPie` constructor (RadarPie.ts lines
153-156). -/
def availableRadius (cfg : RadarPieConfig) (ringCount : ℕ) : ℚ :=
  cfg.outerRadius - cfg.innerRadius - cfg.ringPadding * ((ringCount : ℚ) - 1)

/-- `List.map` with the element's index, by plain structural recursion
(`rings.map((r, level) => ...)` of JS). -/
def mapWithIndex (f : ℕ → α → β) : ℕ → List α → List β
  | _, [] => []
  | i, a :: as => f i a :: mapWithIndex f (i + 1) as

/-- The ring weight list of the `RadarPie` constructor (RadarPie.ts lines
158-161): `itemCount * (rings.length - level)^2 * Math.PI`.  The irrational
constant `Math.PI` is passed in as an abstract parameter `piQ`; the theorems
below hold for every value of it. -/
def ringWeights (piQ : ℚ) (rings : List RingInfo) : List ℚ :=
  mapWithIndex (fun level r =>
    (r.itemCount : ℚ) * ((rings.length : ℚ) - (level : ℚ)) ^ 2 * piQ) 0 rings

/-- The `d3.sum(rings, (r, idx) => idx < ringLevel ? r.radius + ringPadding : 0)`
term of the constructor (RadarPie.ts line 174), over the current (partially
updated) ring list.  The guard `idx < ringLevel` only reads radii that earlier
iterations have already assigned, so the `getD 0` default is never the value
read by the source. -/
def ringInnerRadiusSum (cfg : RadarPieConfig) (current : List RingInfo) (ringLevel : ℕ) : ℚ :=
  ((List.range current.length).map (fun idx =>
    if idx < ringLevel then ((current.get? idx).bind RingInfo.radius).getD 0 + cfg.ringPadding
    else 0)).sum

/-- One iteration of the ring `forEach` of the `RadarPie` constructor
(RadarPie.ts lines 166-177): the ring at `ringLevel` receives its opacity, its
inner radius (configured inner radius plus the stacked radii of the rings
below it, read from the current mutated list) and its scaled radius. -/
def processRingsStep (cfg : RadarPieConfig) (scaled : List ℚ) (current : List RingInfo)
    (ringLevel : ℕ) : List RingInfo :=
  match current.get? ringLevel with
  | none => current
  | some r =>
    current.set ringLevel
      { r with
        opacity := some (ringOpacity cfg.ringMaxOpacity cfg.ringMinOpacity current.length ringLevel)
        innerRadius := some (cfg.innerRadius + ringInnerRadiusSum cfg current ringLevel)
        radius := scaled.get? ringLevel }

/-- The ring radius/opacity stage of the `RadarPie` constructor (RadarPie.ts
lines 151-177): proportional scaling of the ring weights into the available
radius budget, followed by the in-place `forEach` annotation of each ring
level in order. -/
def processRings (cfg : RadarPieConfig) (piQ : ℚ) (rings : List RingInfo) : List RingInfo :=
  let scaled :=
    scaleProportional (ringWeights piQ rings) (availableRadius cfg rings.length) cfg.minRingRadius
  (List.range rings.length).foldl (processRingsStep cfg scaled) rings

/-- The segment arc derivation of the `RadarPie` constructor (RadarPie.ts
lines 222-233): the segment's ring radius is looked up by ring id, its inner
radius is taken from the ring at index `ringLevel`, and the sub-slice's angles
are copied.  `none` models the JS `TypeError` raised when a lookup fails or a
field is still missing. -/
def deriveSegmentArc (rings : List RingInfo) (subArc : ArcParams) (seg : SegmentQ) :
    Option ArcParams :=
  match (rings.find? (fun r => r.id == seg.ringId)).bind RingInfo.radius,
      (rings.get? seg.ringLevel).bind RingInfo.innerRadius with
  | some ringRadius, some ringInnerRadius =>
    some
      { startAngle := subArc.startAngle
        endAngle := subArc.endAngle
        padAngle := subArc.padAngle
        innerRadius := ringInnerRadius
        outerRadius := ringInnerRadius + ringRadius }
  | _, _ => none

/-- The per-arc annotation of the sub-slice `forEach` body (RadarPie.ts lines
197-234, without the trigonometric `labelData`): the arc (with the configured
radii attached, lines 198-199) becomes the sub-slice's `arcParams`, and every
segment receives its derived arc. -/
def annotateSubSlice (cfg : RadarPieConfig) (rings : List RingInfo) (arc : PieArc)
    (sub : SubSliceQ) : Option SubSliceQ :=
  let subArc : ArcParams :=
    { startAngle := arc.startAngle
      endAngle := arc.endAngle
      padAngle := arc.padAngle
      innerRadius := cfg.innerRadius
      outerRadius := cfg.outerRadius }
  match sub.segments.mapM (fun seg =>
      (deriveSegmentArc rings subArc seg).map (fun ap => { seg with arcParams := some ap })) with
  | none => none
  | some segs => some { sub with arcParams := some subArc, segments := segs }

/-- The slice/sub-slice lookup of the sub-slice `forEach` body (RadarPie.ts
lines 201-203: `slices.find(slice => arc.data.sliceId === slice.id).subSlices.find(...)`),
followed by the in-place update of the found sub-slice.  `none` models the JS
`TypeError` when a `find` returns `undefined`. -/
def updateSubSliceIn (slices : List SliceQ) (sliceId subId : String)
    (upd : SubSliceQ → Option SubSliceQ) : Option (List SliceQ) :=
  match slices.findIdx? (fun s => s.id == sliceId) with
  | none => none
  | some i =>
    match slices.get? i with
    | none => none
    | some s =>
      match s.subSlices.findIdx? (fun ss => ss.id == subId) with
      | none => none
      | some j =>
        match s.subSlices.get? j with
        | none => none
        | some ss =>
          match upd ss with
          | none => none
          | some ss' => some (slices.set i { s with subSlices := s.subSlices.set j ss' })

/-- The layout part of the `RadarPie` constructor (RadarPie.ts lines 138-264,
without the item marker and without the trigonometric label positions): rings
are annotated in place, the flat sub-slice list drives the pie generator, and
each resulting arc is written (with its segments' derived arcs) into the slice
tree.  The source performs all of this by mutating `radarContentInput` itself
(line 140 stores the reference without a copy), so the returned tree is also
the state of the caller's content tree after construction. -/
def radarPieBuild (cfg : RadarPieConfig) (piQ : ℚ) (content : RadarContentQ) :
    Option RadarContentQ :=
  let rings' := processRings cfg piQ content.rings
  let arcs := subSliceAngles (content.subSlices.map (fun s => s.itemCount))
    cfg.minSubSliceAngle cfg.subSlicePadAngle
  match (content.subSlices.zip arcs).foldlM
      (fun slices pair => updateSubSliceIn slices pair.1.sliceId pair.1.id
        (annotateSubSlice cfg rings' pair.2)) content.slices with
  | none => none
  | some slices' => some { slices := slices', subSlices := content.subSlices, rings := rings' }

/-- The item placement of the `RadarSegment` constructor (RadarSegment.ts
lines 51-59): a single item is put at the arc's centroid; several items are
placed on the points produced by `distributePointsWithinBoundary` (from
`src/geometricUtils.ts`, not among the included sources — it is abstracted as
the `distribute` parameter, as is the centroid computed by the external
`d3.arc().centroid`); no items means nothing is written. -/
def placeSegmentItems (arcCentroid : ℚ × ℚ) (distribute : ℕ → List (ℚ × ℚ))
    (items : List ItemQ) : List ItemQ :=
  if items.length = 1 then
    match items with
    | [] => []
    | it :: rest => { it with x := some arcCentroid.1, y := some arcCentroid.2 } :: rest
  else if 0 < items.length then
    (items.zip (distribute items.length)).map
      (fun p => { p.1 with x := some p.2.1, y := some p.2.2 })
  else items

/-- Erase an item's computed position (for stating which parts of the content
tree the build may change). -/
def eraseItem (it : ItemQ) : ItemQ :=
  { it with x := none, y := none }

/-- Erase a segment's computed annotations. -/
def eraseSegment (seg : SegmentQ) : SegmentQ :=
  { seg with items := seg.items.map eraseItem, arcParams := none }

/-- Erase a sub-slice's computed annotations. -/
def eraseSubSlice (sub : SubSliceQ) : SubSliceQ :=
  { sub with segments := sub.segments.map eraseSegment, arcParams := none }

/-- Erase a slice's computed annotations. -/
def eraseSlice (s : SliceQ) : SliceQ :=
  { s with subSlices := s.subSlices.map eraseSubSlice }

/-- Erase a ring's computed annotations. -/
def eraseRing (r : RingInfo) : RingInfo :=
  { r with opacity := none, innerRadius := none, radius := none }

/-- Erase every computed annotation of a content tree, leaving the input
skeleton (ids, labels, item counts, dummy flags, item lists). -/
def eraseContent (c : RadarContentQ) : RadarContentQ :=
  { slices := c.slices.map eraseSlice
    subSlices := c.subSlices
    rings := c.rings.map eraseRing }

end RadarChart

namespace RadarChart

/-- A small concrete configuration used for the concrete-input theorems. -/
def exCfg : RadarPieConfig :=
  { outerRadius := 100
    innerRadius := 0
    minSubSliceAngle := 10
    subSlicePadAngle := 0
    sliceDividerOutFlowLength := 0
    sliceLabelDistance := 0
    subSliceLabelDistance := 0
    sliceLabelPadding := 0
    subSliceLabelPadding := 0
    minRingRadius := 10
    ringPadding := 0
    ringMinOpacity := 0
    ringMaxOpacity := 1 }

/-- A one-ring, one-slice, one-sub-slice content snapshot (no items), used as
concrete input for the frame-effect counterexample. -/
def exContent : RadarContentQ :=
  { slices :=
      [{ id := "s0", label := "Slice 0",
         subSlices :=
           [{ id := "ss0", sliceId := "s0", itemCount := 1, isDummy := false,
              segments := [{ ringId := "r0", ringLevel := 0, items := [], arcParams := none }],
              arcParams := none }] }]
    subSlices := [{ id := "ss0", sliceId := "s0", itemCount := 1 }]
    rings := [{ id := "r0", itemCount := 1, opacity := none, innerRadius := none, radius := none }] }

/-- The annotated tree the build produces from `exContent` under `exCfg` (the
single sub-slice receives the full turn, the single ring the full radius
budget, and the single-ring opacity is `NaN`); the equation
`radarPieBuild exCfg 1 exContent = some exBuilt` is proved below. -/
def exBuilt : RadarContentQ :=
  { slices :=
      [{ id := "s0", label := "Slice 0",
         subSlices :=
           [{ id := "ss0", sliceId := "s0", itemCount := 1, isDummy := false,
              segments :=
                [{ ringId := "r0", ringLevel := 0, items := [],
                   arcParams := some
                     { startAngle := 0, endAngle := 360, padAngle := 0,
                       innerRadius := 0, outerRadius := 100 } }],
              arcParams := some
                { startAngle := 0, endAngle := 360, padAngle := 0,
                  innerRadius := 0, outerRadius := 100 } }] }]
    subSlices := [{ id := "ss0", sliceId := "s0", itemCount := 1 }]
    rings :=
      [{ id := "r0", itemCount := 1, opacity := some JSNum.nan,
         innerRadius := some 0, radius := some 100 }] }

/-- The slice label / divider geometry record computed by the slice `forEach`
of the `RadarPie` constructor (RadarPie.ts lines 238-261), real-valued. -/
structure SliceLabelGeom where
  x : ℝ
  y : ℝ
  midAngle : ℝ
  x1 : ℝ
  y1 : ℝ
  x2 : ℝ
  y2 : ℝ

/-- The slice label position and divider line computation (RadarPie.ts lines
238-261), translated literally: `midAngle` is
`firstStart + (lastEnd - firstStart) / 2`, the label sits at
`(cos(midAngle - π/2), sin(midAngle - π/2)) * (firstOuter + sliceLabelDistance)`,
and the divider line runs between the two points at angle `firstStart - π/2`
with radii `firstInner` and `firstOuter + sliceDividerOutFlowLength`.  Angles
here are radians, as in the source. -/
noncomputable def sliceLabelGeom (sliceLabelDistance sliceDividerOutFlowLength : ℝ)
    (firstStart lastEnd firstInner firstOuter : ℝ) : SliceLabelGeom :=
  let midAngle := firstStart + (lastEnd - firstStart) / 2
  { x := Real.cos (midAngle - Real.pi / 2) * (firstOuter + sliceLabelDistance)
    y := Real.sin (midAngle - Real.pi / 2) * (firstOuter + sliceLabelDistance)
    midAngle := midAngle
    x1 := Real.cos (firstStart - Real.pi / 2) * firstInner
    y1 := Real.sin (firstStart - Real.pi / 2) * firstInner
    x2 := Real.cos (firstStart - Real.pi / 2) * (firstOuter + sliceDividerOutFlowLength)
    y2 := Real.sin (firstStart - Real.pi / 2) * (firstOuter + sliceDividerOutFlowLength) }

/-- The radar's polar-to-screen convention: the point at distance `r` from the
origin along the direction at clockwise angle `a` from 12 o'clock (SVG y grows
downwards), i.e. `(r * sin a, -(r * cos a))`.  This is exactly the form the
source uses for the sub-slice labels (RadarPie.ts lines 210-217). -/
noncomputable def radialPoint (r a : ℝ) : ℝ × ℝ :=
  (r * Real.sin a, -(r * Real.cos a))

/-- The slice-label property stated by the spec (§4.6), phrased over a
computed `SliceLabelGeom`: the label point lies at distance
`firstOuter + sliceLabelDistance` from the origin, on the ray of the overall
mid-angle (the midpoint of the first sub-slice's start and the last
sub-slice's end), and the divider line is the radial segment at the first
sub-slice's start angle running from radius `firstInner` to radius
`firstOuter + sliceDividerOutFlowLength`. -/
def SliceLabelGeomSpec (sliceLabelDistance sliceDividerOutFlowLength : ℝ)
    (firstStart lastEnd firstInner firstOuter : ℝ) (g : SliceLabelGeom) : Prop :=
  g.midAngle = (firstStart + lastEnd) / 2 ∧
  (g.x, g.y) = radialPoint (firstOuter + sliceLabelDistance) ((firstStart + lastEnd) / 2) ∧
  Real.sqrt (g.x ^ 2 + g.y ^ 2) = firstOuter + sliceLabelDistance ∧
  (g.x1, g.y1) = radialPoint firstInner firstStart ∧
  (g.x2, g.y2) = radialPoint (firstOuter + sliceDividerOutFlowLength) firstStart ∧
  g.x1 * g.y2 - g.y1 * g.x2 = 0

end RadarChart

namespace RadarChart

theorem sum_map_const_q (l : List α) (m : ℚ) : (l.map (fun _ => m)).sum = (l.length : ℚ) * m := by
  induction l with
  | nil => simp
  | cons a tl ih => simp [ih]; ring

theorem mul_length_le_sum (l : List ℚ) (m : ℚ) (h : ∀ x ∈ l, m ≤ x) :
    m * (l.length : ℚ) ≤ l.sum := by
  induction l with
  | nil => simp
  | cons a tl ih =>
    have ha : m ≤ a := h a (List.mem_cons_self a tl)
    have htl : m * (tl.length : ℚ) ≤ tl.sum := ih (fun x hx => h x (List.mem_cons_of_mem a hx))
    simp only [List.sum_cons, List.length_cons]
    push_cast
    linarith

theorem scaleLoop_length (total m : ℚ) :
    ∀ (fuel : ℕ) (items : List (ℚ × Bool)), (scaleLoop total m fuel items).length = items.length := by
  intro fuel
  induction fuel with
  | zero => intro items; simp [scaleLoop]
  | succ n ih =>
    intro items
    simp only [scaleLoop]
    split
    · rw [ih]; simp
    · simp

theorem scaleLoop_ge_min (total m : ℚ) :
    ∀ (fuel : ℕ) (items : List (ℚ × Bool)) (x : ℚ), x ∈ scaleLoop total m fuel items → m ≤ x := by
  intro fuel
  induction fuel with
  | zero =>
    intro items x hx
    simp only [scaleLoop, List.mem_map] at hx
    obtain ⟨it, _, rfl⟩ := hx
    exact le_refl m
  | succ n ih =>
    intro items x hx
    simp only [scaleLoop] at hx
    by_cases hany :
        items.any (fun it =>
          !it.2 && decide (scaleShare (poolSum items)
            (total - m * (clampedCount items : ℚ)) it.1 < m)) = true
    · rw [if_pos hany] at hx
      exact ih _ x hx
    · rw [if_neg hany] at hx
      simp only [List.mem_map] at hx
      obtain ⟨it, hit, rfl⟩ := hx
      by_cases hb : it.2 = true
      · simp [hb]
      · simp only [Bool.not_eq_true] at hb
        simp only [hb, if_neg Bool.false_ne_true]
        simp only [List.any_eq_true, not_exists, not_and] at hany
        have := hany it hit
        simp only [hb, Bool.not_false, Bool.true_and, decide_eq_true_eq] at this
        linarith [not_lt.mp this]

theorem sum_clamped_split (m sumW budget : ℚ) (items : List (ℚ × Bool)) :
    ((items.map (fun it => if it.2 then m else scaleShare sumW budget it.1)).sum)
      = m * (clampedCount items : ℚ) + poolSum items / sumW * budget := by
  induction items with
  | nil => simp [clampedCount, poolSum]
  | cons hd tl ih =>
    obtain ⟨w, b⟩ := hd
    cases b
    · simp only [List.map_cons, List.sum_cons, if_neg Bool.false_ne_true, ih,
        clampedCount, poolSum, List.filter_cons]
      simp only [Bool.not_false, if_neg Bool.false_ne_true]
      simp only [clampedCount, poolSum] at ih ⊢
      simp [scaleShare, add_div, add_mul]
      ring
    · simp only [List.map_cons, List.sum_cons, if_pos rfl, ih, clampedCount, poolSum,
        List.filter_cons]
      simp only [clampedCount, poolSum] at ih ⊢
      simp
      ring

theorem scaleLoop_sum_le (total m : ℚ) (hm : 0 ≤ m) :
    ∀ (fuel : ℕ) (items : List (ℚ × Bool)),
      m * (items.length : ℚ) ≤ total → (scaleLoop total m fuel items).sum ≤ total := by
  intro fuel
  induction fuel with
  | zero =>
    intro items hlen
    simp only [scaleLoop]
    rw [sum_map_const_q]
    linarith [mul_comm m (items.length : ℚ)]
  | succ n ih =>
    intro items hlen
    simp only [scaleLoop]
    split
    · apply ih
      simpa using hlen
    · rw [sum_clamped_split]
      have hk : (clampedCount items : ℚ) ≤ (items.length : ℚ) := by
        exact_mod_cast List.length_filter_le _ items
      by_cases hsw : poolSum items = 0
      · rw [hsw]
        simp only [zero_div, zero_mul, add_zero]
        calc m * (clampedCount items : ℚ) ≤ m * (items.length : ℚ) :=
              mul_le_mul_of_nonneg_left hk hm
          _ ≤ total := hlen
      · rw [div_self hsw, one_mul]
        linarith

theorem scaleProportional_length (weights : List ℚ) (total m : ℚ) :
    (scaleProportional weights total m).length = weights.length := by
  rw [scaleProportional, scaleLoop_length, List.length_map]

theorem scaleProportional_ge_min (weights : List ℚ) (total m : ℚ) :
    ∀ x ∈ scaleProportional weights total m, m ≤ x := by
  intro x hx
  exact scaleLoop_ge_min total m _ _ x hx

theorem scaleProportional_sum_le (weights : List ℚ) (total m : ℚ) (hm : 0 ≤ m)
    (hlen : m * (weights.length : ℚ) ≤ total) :
    (scaleProportional weights total m).sum ≤ total := by
  apply scaleLoop_sum_le total m hm
  simpa using hlen

theorem scaleProportional_sum_ge (weights : List ℚ) (total m : ℚ) :
    m * ((scaleProportional weights total m).length : ℚ) ≤ (scaleProportional weights total m).sum :=
  mul_length_le_sum _ m (scaleProportional_ge_min weights total m)

theorem d3PieGo_length (k p : ℚ) :
    ∀ (vs : List ℚ) (a0 : ℚ), (d3PieGo k p a0 vs).length = vs.length := by
  intro vs
  induction vs with
  | nil => intro a0; rfl
  | cons v rest ih => intro a0; simp [d3PieGo, ih]

theorem d3PieGo_head_start (k p : ℚ) (vs : List ℚ) (a0 : ℚ)
    (h : 0 < (d3PieGo k p a0 vs).length) :
    ((d3PieGo k p a0 vs).get ⟨0, h⟩).startAngle = a0 := by
  cases vs with
  | nil => simp [d3PieGo] at h
  | cons v rest => rfl

theorem d3PieGo_chain (k p : ℚ) :
    ∀ (vs : List ℚ) (a0 : ℚ) (i : ℕ) (h : i + 1 < (d3PieGo k p a0 vs).length)
      (h' : i < (d3PieGo k p a0 vs).length),
      ((d3PieGo k p a0 vs).get ⟨i + 1, h⟩).startAngle
        = ((d3PieGo k p a0 vs).get ⟨i, h'⟩).endAngle := by
  intro vs
  induction vs with
  | nil => intro a0 i h h'; simp [d3PieGo] at h
  | cons v rest ih =>
    intro a0 i h h'
    cases i with
    | zero =>
      have hlen : 0 < (d3PieGo k p (a0 + (if 0 < v then v * k else 0) + p) rest).length := by
        simpa [d3PieGo] using h
      simpa [d3PieGo, List.get] using d3PieGo_head_start k p rest _ hlen
    | succ j =>
      have h2 : j + 1 < (d3PieGo k p (a0 + (if 0 < v then v * k else 0) + p) rest).length := by
        simpa [d3PieGo] using h
      have h2' : j < (d3PieGo k p (a0 + (if 0 < v then v * k else 0) + p) rest).length := by
        omega
      simpa [d3PieGo, List.get] using ih (a0 + (if 0 < v then v * k else 0) + p) j h2 h2'

theorem d3PieGo_span_sum (k p : ℚ) :
    ∀ (vs : List ℚ) (a0 : ℚ),
      ((d3PieGo k p a0 vs).map (fun a => a.endAngle - a.startAngle)).sum
        = (vs.map (fun v => (if 0 < v then v * k else 0) + p)).sum := by
  intro vs
  induction vs with
  | nil => intro a0; rfl
  | cons v rest ih =>
    intro a0
    simp only [d3PieGo, List.map_cons, List.sum_cons, ih]
    ring_nf

theorem d3PieGo_mem (k p : ℚ) :
    ∀ (vs : List ℚ) (a0 : ℚ) (arc : PieArc), arc ∈ d3PieGo k p a0 vs →
      ∃ v ∈ vs, arc.endAngle - arc.startAngle = (if 0 < v then v * k else 0) + p
        ∧ arc.padAngle = p ∧ arc.value = v := by
  intro vs
  induction vs with
  | nil => intro a0 arc h; simp [d3PieGo] at h
  | cons v rest ih =>
    intro a0 arc h
    simp only [d3PieGo, List.mem_cons] at h
    rcases h with h | h
    · refine ⟨v, List.mem_cons_self v rest, ?_⟩
      subst h
      constructor
      · ring
      · exact ⟨rfl, rfl⟩
    · obtain ⟨w, hw, hspan, hpad, hval⟩ := ih _ arc h
      exact ⟨w, List.mem_cons_of_mem v hw, hspan, hpad, hval⟩

theorem d3PieGo_map_value (k p : ℚ) :
    ∀ (vs : List ℚ) (a0 : ℚ), (d3PieGo k p a0 vs).map PieArc.value = vs := by
  intro vs
  induction vs with
  | nil => intro a0; rfl
  | cons v rest ih => intro a0; simp [d3PieGo, ih]

theorem sum_map_affine (k p : ℚ) (vs : List ℚ) :
    (vs.map (fun v => v * k + p)).sum = vs.sum * k + (vs.length : ℚ) * p := by
  induction vs with
  | nil => simp
  | cons v rest ih =>
    simp only [List.map_cons, List.sum_cons, ih, List.length_cons, List.sum_cons]
    push_cast
    ring

theorem d3PieGo_get?_start (k p : ℚ) (vs : List ℚ) (a0 : ℚ) (arc : PieArc)
    (h : (d3PieGo k p a0 vs).get? 0 = some arc) : arc.startAngle = a0 := by
  rw [List.get?_eq_some] at h
  obtain ⟨hlt, hget⟩ := h
  rw [← hget]
  exact d3PieGo_head_start k p vs a0 hlt

theorem d3PieGo_get?_chain (k p : ℚ) (vs : List ℚ) (a0 : ℚ) (i : ℕ) (arc arc' : PieArc)
    (h : (d3PieGo k p a0 vs).get? i = some arc)
    (h' : (d3PieGo k p a0 vs).get? (i + 1) = some arc') :
    arc'.startAngle = arc.endAngle := by
  rw [List.get?_eq_some] at h h'
  obtain ⟨hlt, hget⟩ := h
  obtain ⟨hlt', hget'⟩ := h'
  rw [← hget, ← hget']
  exact d3PieGo_chain k p vs a0 i hlt' hlt

theorem d3Pie_pos_eq (values : List ℚ) (padA : ℚ) (hpos : ∀ v ∈ values, 0 < v)
    (hne : values ≠ []) :
    d3Pie values padA
      = d3PieGo
          ((360 - (values.length : ℚ) * min (360 / (values.length : ℚ)) padA) / values.sum)
          (min (360 / (values.length : ℚ)) padA) 0 values := by
  have hfil : values.filter (fun v => decide (0 < v)) = values :=
    List.filter_eq_self.mpr (fun v hv => decide_eq_true (hpos v hv))
  have hS : 0 < values.sum := List.sum_pos values hpos hne
  simp only [d3Pie, hfil, if_neg (ne_of_gt hS)]

/-- **C1** (amended): for every nonempty sub-slice item-count list, positive
`minSubSliceAngle` and nonnegative `subSlicePadAngle`, the sub-slice arcs of
the constructor's angular layout partition the full circle: there is one arc
per sub-slice, carrying the sub-slices' proportionally scaled shares in input
order; the first arc starts at `0`; the arcs are contiguous (each arc starts
where the previous one ends) and non-overlapping (spans are nonnegative); the
spans `endAngle - startAngle` sum to exactly `360` degrees (each span already
contains its `padAngle`, so no extra padding term is added); and when
`minSubSliceAngle * count ≤ 360` no arc's span is below `minSubSliceAngle`. -/
theorem C1_subSlice_partition (itemCounts : List ℕ) (minA padA : ℚ)
    (hne : itemCounts ≠ []) (hmin : 0 < minA) (hpad : 0 ≤ padA) :
    (subSliceAngles itemCounts minA padA).length = itemCounts.length
    ∧ (subSliceAngles itemCounts minA padA).map PieArc.value
        = scaleProportional (itemCounts.map (fun c : ℕ => (c : ℚ))) 360 minA
    ∧ (∀ arc0 : PieArc, (subSliceAngles itemCounts minA padA).get? 0 = some arc0 →
        arc0.startAngle = 0)
    ∧ (∀ (i : ℕ) (arc arc' : PieArc),
        (subSliceAngles itemCounts minA padA).get? i = some arc →
        (subSliceAngles itemCounts minA padA).get? (i + 1) = some arc' →
        arc'.startAngle = arc.endAngle)
    ∧ (∀ arc ∈ subSliceAngles itemCounts minA padA, 0 ≤ arc.endAngle - arc.startAngle)
    ∧ ((subSliceAngles itemCounts minA padA).map
        (fun a => a.endAngle - a.startAngle)).sum = 360
    ∧ (minA * (itemCounts.length : ℚ) ≤ 360 →
        ∀ arc ∈ subSliceAngles itemCounts minA padA, minA ≤ arc.endAngle - arc.startAngle) := by
  set vals := scaleProportional (itemCounts.map (fun c : ℕ => (c : ℚ))) 360 minA with hv
  have hlen : vals.length = itemCounts.length := by
    rw [hv, scaleProportional_length, List.length_map]
  have hge : ∀ v ∈ vals, minA ≤ v := scaleProportional_ge_min _ _ _
  have hpos : ∀ v ∈ vals, 0 < v := fun v hvm => lt_of_lt_of_le hmin (hge v hvm)
  have hvne : vals ≠ [] := by
    intro hcontra
    apply hne
    rw [← List.length_eq_zero, ← hlen, hcontra]
    rfl
  have hS : 0 < vals.sum := List.sum_pos vals hpos hvne
  have hcast : (vals.length : ℚ) = (itemCounts.length : ℚ) := by exact_mod_cast hlen
  set n : ℚ := (itemCounts.length : ℚ) with hn
  have hn1 : 1 ≤ n := by
    rw [hn]
    exact_mod_cast List.length_pos.mpr hne
  have hn0 : n ≠ 0 := by linarith
  set p := min (360 / n) padA with hp
  have hp0 : 0 ≤ p := le_min (div_nonneg (by norm_num) (by linarith)) hpad
  have hpn : n * p ≤ 360 := by
    have h1 : p ≤ 360 / n := min_le_left _ _
    have h2 : n * p ≤ n * (360 / n) := mul_le_mul_of_nonneg_left h1 (by linarith)
    have h3 : n * (360 / n) = 360 := by field_simp
    linarith
  set k := (360 - n * p) / vals.sum with hk
  have hk0 : 0 ≤ k := div_nonneg (by linarith) (le_of_lt hS)
  have heq : subSliceAngles itemCounts minA padA = d3PieGo k p 0 vals := by
    rw [subSliceAngles, ← hv, d3Pie_pos_eq vals padA hpos hvne, hcast, ← hp, ← hk]
  refine ⟨?_, ?_, ?_, ?_, ?_, ?_, ?_⟩
  · rw [heq, d3PieGo_length, hlen]
  · rw [heq, d3PieGo_map_value]
  · intro arc0 h0
    rw [heq] at h0
    exact d3PieGo_get?_start k p vals 0 arc0 h0
  · intro i arc arc' h h'
    rw [heq] at h h'
    exact d3PieGo_get?_chain k p vals 0 i arc arc' h h'
  · intro arc harc
    rw [heq] at harc
    obtain ⟨v, hvm, hspan, _, _⟩ := d3PieGo_mem k p vals 0 arc harc
    rw [if_pos (hpos v hvm)] at hspan
    have : 0 ≤ v * k := mul_nonneg (le_of_lt (hpos v hvm)) hk0
    linarith [hspan]
  · rw [heq, d3PieGo_span_sum]
    have hcongr : vals.map (fun v => (if 0 < v then v * k else 0) + p)
        = vals.map (fun v => v * k + p) :=
      List.map_congr_left (fun v hvm => by rw [if_pos (hpos v hvm)])
    rw [hcongr, sum_map_affine, hcast, hk]
    have hcancel : vals.sum * ((360 - n * p) / vals.sum) = 360 - n * p :=
      mul_div_cancel₀ _ (ne_of_gt hS)
    linarith
  · intro hover arc harc
    rw [heq] at harc
    obtain ⟨v, hvm, hspan, _, _⟩ := d3PieGo_mem k p vals 0 arc harc
    rw [if_pos (hpos v hvm)] at hspan
    have hvmin : minA ≤ v := hge v hvm
    have hS360 : vals.sum ≤ 360 := by
      apply scaleProportional_sum_le _ _ _ (le_of_lt hmin)
      rw [List.length_map]
      exact hover
    have hSmin : minA * n ≤ vals.sum := by
      have hsg := scaleProportional_sum_ge (itemCounts.map (fun c : ℕ => (c : ℚ))) 360 minA
      rw [← hv, hcast] at hsg
      exact hsg
    have key : (minA - p) * vals.sum ≤ minA * (360 - n * p) := by
      nlinarith [mul_nonneg (le_of_lt hmin) (sub_nonneg.mpr hS360),
        mul_nonneg hp0 (sub_nonneg.mpr hSmin)]
    have hdivk : minA - p ≤ minA * k := by
      rw [hk, mul_div_assoc']
      exact (le_div_iff₀ hS).mpr key
    have hvk : minA * k ≤ v * k := mul_le_mul_of_nonneg_right hvmin hk0
    linarith [hspan]

/-- **C1** counterexample to the claim as stated: with two equal sub-slices,
`minSubSliceAngle = 12` and the default `subSlicePadAngle = 0.2°`, the sum of
the spans `endAngle - startAngle` is already exactly `360`, so adding the
total padding on top does not give `360`. -/
theorem C1_counterexample :
    ((subSliceAngles [1, 1] 12 (1/5)).map (fun a => a.endAngle - a.startAngle)).sum
      + ((subSliceAngles [1, 1] 12 (1/5)).map PieArc.padAngle).sum ≠ 360 := by
  norm_num [subSliceAngles, d3Pie, d3PieGo, scaleProportional, scaleLoop, poolSum,
    clampedCount, scaleShare]

/-- Witness for `C1_subSlice_partition` at the concrete input
`itemCounts = [1, 1]`, `minSubSliceAngle = 12`, `subSlicePadAngle = 1/5`. -/
theorem C1_witness :
    ((subSliceAngles [1, 1] 12 (1/5)).map (fun a => a.endAngle - a.startAngle)).sum = 360 :=
  (C1_subSlice_partition [1, 1] 12 (1/5) (by decide) (by norm_num) (by norm_num)).2.2.2.2.2.1

/-- **C3**: the anchor classifier, on the normalized domain `[0°, 360°)` (the
single mid-angle argument, here in degree units): `hAnchor` is `middle`
within 10° of the top or strictly between 170° and 190°, `start` on
`[10°, 170°]`, `end` on `[190°, 350°]`; `vAnchor` is `baseline` within 45° of
the top, `hanging` strictly between 135° and 225°, `middle` on the two
lateral bands; and the four cardinal angles classify as
`{middle, baseline}`, `{start, middle}`, `{middle, hanging}`,
`{end, middle}`. -/
theorem C3_anchor_bands :
    (∀ a : ℚ, 0 ≤ a → a < 360 →
      ((a < 10 ∨ 350 < a ∨ (170 < a ∧ a < 190)) → hAnchorOf a = some HAnchor.middle)
      ∧ ((10 ≤ a ∧ a ≤ 170) → hAnchorOf a = some HAnchor.hstart)
      ∧ ((190 ≤ a ∧ a ≤ 350) → hAnchorOf a = some HAnchor.hend)
      ∧ ((a < 45 ∨ 315 < a) → vAnchorOf a = some VAnchor.baseline)
      ∧ ((135 < a ∧ a < 225) → vAnchorOf a = some VAnchor.hanging)
      ∧ (((45 ≤ a ∧ a ≤ 135) ∨ (225 ≤ a ∧ a ≤ 315)) → vAnchorOf a = some VAnchor.middle))
    ∧ calculateAnchorPlacement 0 none = some ⟨HAnchor.middle, VAnchor.baseline⟩
    ∧ calculateAnchorPlacement 90 none = some ⟨HAnchor.hstart, VAnchor.middle⟩
    ∧ calculateAnchorPlacement 180 none = some ⟨HAnchor.middle, VAnchor.hanging⟩
    ∧ calculateAnchorPlacement 270 none = some ⟨HAnchor.hend, VAnchor.middle⟩ := by
  refine ⟨?_, ?_, ?_, ?_, ?_⟩
  · intro a h0 h360
    refine ⟨?_, ?_, ?_, ?_, ?_, ?_⟩
    · intro hband
      simp only [hAnchorOf, H_CUT_OFF_DEGREE]
      rcases hband with h | h | ⟨ha, hb⟩
      · rw [if_pos (Or.inr h)]
      · rw [if_pos (Or.inl (show (360:ℚ) - 10 < a by linarith))]
      · have hg1 : ¬((360:ℚ) - 10 < a ∨ a < 10) := by
          push_neg
          exact ⟨by linarith, by linarith⟩
        rw [if_neg hg1,
          if_pos (show (180:ℚ) - 10 < a ∧ a < 180 + 10 from ⟨by linarith, by linarith⟩)]
    · rintro ⟨ha, hb⟩
      simp only [hAnchorOf, H_CUT_OFF_DEGREE]
      have hg1 : ¬((360:ℚ) - 10 < a ∨ a < 10) := by
        push_neg
        exact ⟨by linarith, by linarith⟩
      have hg2 : ¬((180:ℚ) - 10 < a ∧ a < 180 + 10) := by
        rintro ⟨h, _⟩
        linarith
      rw [if_neg hg1, if_neg hg2,
        if_pos (show (10:ℚ) ≤ a ∧ a ≤ 180 - 10 from ⟨by linarith, by linarith⟩)]
    · rintro ⟨ha, hb⟩
      simp only [hAnchorOf, H_CUT_OFF_DEGREE]
      have hg1 : ¬((360:ℚ) - 10 < a ∨ a < 10) := by
        push_neg
        exact ⟨by linarith, by linarith⟩
      have hg2 : ¬((180:ℚ) - 10 < a ∧ a < 180 + 10) := by
        rintro ⟨_, h⟩
        linarith
      have hg3 : ¬((10:ℚ) ≤ a ∧ a ≤ 180 - 10) := by
        rintro ⟨_, h⟩
        linarith
      rw [if_neg hg1, if_neg hg2, if_neg hg3,
        if_pos (show (180:ℚ) + 10 ≤ a ∧ a ≤ 360 - 10 from ⟨by linarith, by linarith⟩)]
    · intro hband
      simp only [vAnchorOf, V_CUT_OFF_DEGREE]
      rcases hband with h | h
      · rw [if_pos (Or.inr h)]
      · rw [if_pos (Or.inl (show (360:ℚ) - 45 < a by linarith))]
    · rintro ⟨ha, hb⟩
      simp only [vAnchorOf, V_CUT_OFF_DEGREE]
      have hg1 : ¬((360:ℚ) - 45 < a ∨ a < 45) := by
        push_neg
        exact ⟨by linarith, by linarith⟩
      rw [if_neg hg1,
        if_pos (show (180:ℚ) - 45 < a ∧ a < 180 + 45 from ⟨by linarith, by linarith⟩)]
    · intro hband
      simp only [vAnchorOf, V_CUT_OFF_DEGREE]
      rcases hband with ⟨ha, hb⟩ | ⟨ha, hb⟩
      · have hg1 : ¬((360:ℚ) - 45 < a ∨ a < 45) := by
          push_neg
          exact ⟨by linarith, by linarith⟩
        have hg2 : ¬((180:ℚ) - 45 < a ∧ a < 180 + 45) := by
          rintro ⟨h, _⟩
          linarith
        rw [if_neg hg1, if_neg hg2,
          if_pos (show (45:ℚ) ≤ a ∧ a ≤ 180 - 45 from ⟨by linarith, by linarith⟩)]
      · have hg1 : ¬((360:ℚ) - 45 < a ∨ a < 45) := by
          push_neg
          exact ⟨by linarith, by linarith⟩
        have hg2 : ¬((180:ℚ) - 45 < a ∧ a < 180 + 45) := by
          rintro ⟨_, h⟩
          linarith
        have hg3 : ¬((45:ℚ) ≤ a ∧ a ≤ 180 - 45) := by
          rintro ⟨_, h⟩
          linarith
        rw [if_neg hg1, if_neg hg2, if_neg hg3,
          if_pos (show (180:ℚ) + 45 ≤ a ∧ a ≤ 360 - 45 from ⟨by linarith, by linarith⟩)]
  · norm_num [calculateAnchorPlacement, calcMidRads, hAnchorOf, vAnchorOf,
      H_CUT_OFF_DEGREE, V_CUT_OFF_DEGREE]
  · norm_num [calculateAnchorPlacement, calcMidRads, hAnchorOf, vAnchorOf,
      H_CUT_OFF_DEGREE, V_CUT_OFF_DEGREE]
  · norm_num [calculateAnchorPlacement, calcMidRads, hAnchorOf, vAnchorOf,
      H_CUT_OFF_DEGREE, V_CUT_OFF_DEGREE]
  · norm_num [calculateAnchorPlacement, calcMidRads, hAnchorOf, vAnchorOf,
      H_CUT_OFF_DEGREE, V_CUT_OFF_DEGREE]

/-- Witness for `C3_anchor_bands`: the band part applied at `a = 20`. -/
theorem C3_witness : hAnchorOf 20 = some HAnchor.hstart :=
  ((C3_anchor_bands.1 20 (by norm_num) (by norm_num)).2.1) ⟨by norm_num, by norm_num⟩

theorem hAnchorOf_isSome (r : ℚ) : (hAnchorOf r).isSome = true := by
  simp only [hAnchorOf]
  split_ifs with h1 h2 h3 h4
  · rfl
  · rfl
  · rfl
  · rfl
  · exfalso
    push_neg at h1 h2 h3 h4
    simp only [H_CUT_OFF_DEGREE] at h1
    have hc : (180:ℚ) - 10 < r := h3 h1.2
    have hd : (180:ℚ) + 10 ≤ r := h2 hc
    have he : (360:ℚ) - 10 < r := h4 hd
    linarith [h1.1]

theorem vAnchorOf_isSome (r : ℚ) : (vAnchorOf r).isSome = true := by
  simp only [vAnchorOf]
  split_ifs with h1 h2 h3 h4
  · rfl
  · rfl
  · rfl
  · rfl
  · exfalso
    push_neg at h1 h2 h3 h4
    simp only [V_CUT_OFF_DEGREE] at h1
    have hc : (180:ℚ) - 45 < r := h3 h1.2
    have hd : (180:ℚ) + 45 ≤ r := h2 hc
    have he : (360:ℚ) - 45 < r := h4 hd
    linarith [h1.1]

/-- **C4** (amended): `calculateAnchorPlacement` never raises: the branch
conditions of both anchor chains are total over all angles, including
negative ones and ones beyond a full turn, so every input returns a placement
and the `throw` branches are unreachable (a negative angle, for instance,
satisfies the `rads < 10°` test of the top section). -/
theorem C4_classifier_total (startOrMidAngle : ℚ) (endAngle : Option ℚ) :
    (calculateAnchorPlacement startOrMidAngle endAngle).isSome = true := by
  simp only [calculateAnchorPlacement]
  obtain ⟨h, hh⟩ := Option.isSome_iff_exists.mp (hAnchorOf_isSome (calcMidRads startOrMidAngle endAngle))
  obtain ⟨v, hv⟩ := Option.isSome_iff_exists.mp (vAnchorOf_isSome (calcMidRads startOrMidAngle endAngle))
  rw [hh, hv]
  rfl

/-- **C4** counterexample to the claim as stated: the out-of-domain angle
`-45°` does not raise a classification error — it is classified as
`{middle, baseline}` (the `rads < 10°` top-section test accepts every
negative angle). -/
theorem C4_counterexample :
    calculateAnchorPlacement (-45) none = some ⟨HAnchor.middle, VAnchor.baseline⟩
    ∧ calculateAnchorPlacement (-45) none ≠ none := by
  have hcalc : calculateAnchorPlacement (-45) none
      = some ⟨HAnchor.middle, VAnchor.baseline⟩ := by
    norm_num [calculateAnchorPlacement, calcMidRads, hAnchorOf, vAnchorOf,
      H_CUT_OFF_DEGREE, V_CUT_OFF_DEGREE]
  refine ⟨hcalc, ?_⟩
  rw [hcalc]
  exact fun h => Option.noConfusion h

/-- **C10**: with exactly one ring, the opacity computation divides the zero
numerator `(max - min) * (1 - 0 - 1)` by `ringCount - 1 = 0`, so the computed
opacity is `NaN` — in particular not a finite number in the configured
`[ringMinOpacity, ringMaxOpacity]` range; nothing guards the single-ring
case. -/
theorem C10_single_ring_nan (maxO minO : ℚ) :
    ringOpacity maxO minO 1 0 = JSNum.nan
    ∧ ∀ q : ℚ, ringOpacity maxO minO 1 0 ≠ JSNum.fin q := by
  have h : ringOpacity maxO minO 1 0 = JSNum.nan := by
    norm_num [ringOpacity, jsDiv, jsAddFin]
  refine ⟨h, fun q hq => ?_⟩
  rw [h] at hq
  exact JSNum.noConfusion hq

/-- **C7**: for `n ≥ 2` rings the opacity of the ring at level `L` is the
finite number `min + (max - min) * (n - 1 - L) / (n - 1)`: it equals `max` at
level `0`, `min` at the outermost level `n - 1`, and is monotonically
non-increasing in the level when `max ≥ min`. -/
theorem C7_ring_opacity (maxO minO : ℚ) (n L : ℕ) (hn : 2 ≤ n) (_hL : L < n)
    (hrange : minO ≤ maxO) :
    ringOpacity maxO minO n L
      = JSNum.fin (minO + (maxO - minO) * ((n : ℚ) - 1 - (L : ℚ)) / ((n : ℚ) - 1))
    ∧ ringOpacity maxO minO n 0 = JSNum.fin maxO
    ∧ ringOpacity maxO minO n (n - 1) = JSNum.fin minO
    ∧ (∀ L' : ℕ, L ≤ L' → L' < n →
        ∃ q q' : ℚ, ringOpacity maxO minO n L = JSNum.fin q
          ∧ ringOpacity maxO minO n L' = JSNum.fin q' ∧ q' ≤ q) := by
  have hn2 : (2:ℚ) ≤ (n : ℚ) := by exact_mod_cast hn
  have hden : ((n : ℚ) - 1) ≠ 0 := by linarith
  have hfin : ∀ M : ℕ, ringOpacity maxO minO n M
      = JSNum.fin ((maxO - minO) * ((n : ℚ) - (M : ℚ) - 1) / ((n : ℚ) - 1) + minO) := by
    intro M
    simp only [ringOpacity, jsDiv, if_neg hden, jsAddFin]
  refine ⟨?_, ?_, ?_, ?_⟩
  · rw [hfin L]
    exact congrArg JSNum.fin (by ring)
  · rw [hfin 0]
    refine congrArg JSNum.fin ?_
    field_simp
  · rw [hfin (n - 1), Nat.cast_sub (by omega : 1 ≤ n)]
    refine congrArg JSNum.fin ?_
    push_cast
    rw [show (n : ℚ) - ((n : ℚ) - 1) - 1 = 0 by ring]
    simp
  · intro L' h1 h2
    refine ⟨_, _, hfin L, hfin L', ?_⟩
    have hLL : (L : ℚ) ≤ (L' : ℚ) := by exact_mod_cast h1
    have key : ((maxO - minO) * ((n : ℚ) - (L : ℚ) - 1) / ((n : ℚ) - 1) + minO)
        - ((maxO - minO) * ((n : ℚ) - (L' : ℚ) - 1) / ((n : ℚ) - 1) + minO)
        = (maxO - minO) * ((L' : ℚ) - (L : ℚ)) / ((n : ℚ) - 1) := by
      field_simp
      ring
    have hpos : 0 ≤ (maxO - minO) * ((L' : ℚ) - (L : ℚ)) / ((n : ℚ) - 1) :=
      div_nonneg (mul_nonneg (by linarith) (by linarith)) (by linarith)
    linarith [key]

/-- Witness for `C7_ring_opacity` at `max = 1`, `min = 0`, `n = 2`, `L = 0`:
the innermost of two rings is fully opaque. -/
theorem C7_witness : ringOpacity 1 0 2 0 = JSNum.fin 1 :=
  (C7_ring_opacity 1 0 2 0 (by norm_num) (by norm_num) (by norm_num)).2.1

/-- **C2**: when the segment's `ringId` finds the same ring record `r` that
sits at index `ringLevel` (the consistent-data case) and that ring's computed
fields are present, the derived segment arc copies the sub-slice's
`startAngle`, `endAngle` and `padAngle` unchanged, takes `innerRadius` from
the ring and sets `outerRadius := ring.innerRadius + ring.radius`; no other
angle computation is performed. -/
theorem C2_segment_arc (rings : List RingInfo) (subArc : ArcParams) (seg : SegmentQ)
    (r : RingInfo) (ir rad : ℚ)
    (hfind : rings.find? (fun x => x.id == seg.ringId) = some r)
    (hget : rings.get? seg.ringLevel = some r)
    (hrad : r.radius = some rad) (hir : r.innerRadius = some ir) :
    deriveSegmentArc rings subArc seg
      = some { startAngle := subArc.startAngle, endAngle := subArc.endAngle,
               padAngle := subArc.padAngle, innerRadius := ir, outerRadius := ir + rad } := by
  simp only [deriveSegmentArc, hfind, hget, Option.some_bind, hrad, hir]

/-- Witness for `C2_segment_arc` on a concrete one-ring content. -/
theorem C2_witness :
    deriveSegmentArc
        [{ id := "r0", itemCount := 0, opacity := none, innerRadius := some 5, radius := some 7 }]
        { startAngle := 1, endAngle := 2, padAngle := 3, innerRadius := 4, outerRadius := 9 }
        { ringId := "r0", ringLevel := 0, items := [], arcParams := none }
      = some { startAngle := 1, endAngle := 2, padAngle := 3, innerRadius := 5,
               outerRadius := 5 + 7 } :=
  C2_segment_arc _ _ _
    { id := "r0", itemCount := 0, opacity := none, innerRadius := some 5, radius := some 7 }
    5 7 rfl rfl rfl rfl

/-- **C9**: a segment with exactly one item places that item at the arc's
centroid, independently of the distribution function (it is not invoked); a
segment with no items writes no positions and raises no error (the list is
returned unchanged, i.e. empty). -/
theorem C9_item_placement (arcCentroid : ℚ × ℚ) (distribute : ℕ → List (ℚ × ℚ))
    (items : List ItemQ) (it : ItemQ) :
    (items = [it] → placeSegmentItems arcCentroid distribute items
        = [{ it with x := some arcCentroid.1, y := some arcCentroid.2 }])
    ∧ (items = [] → placeSegmentItems arcCentroid distribute items = []) := by
  constructor
  · rintro rfl
    simp [placeSegmentItems]
  · rintro rfl
    simp [placeSegmentItems]

/-- Witness for `C9_item_placement` on a concrete singleton segment. -/
theorem C9_witness :
    placeSegmentItems (1, 2) (fun _ => []) [{ groupId := "g", x := none, y := none }]
      = [{ groupId := "g", x := some 1, y := some 2 }] :=
  (C9_item_placement (1, 2) (fun _ => []) [{ groupId := "g", x := none, y := none }]
    { groupId := "g", x := none, y := none }).1 rfl

theorem get?_set_self : ∀ (l : List α) (i : ℕ) (a : α), i < l.length →
    (l.set i a).get? i = some a := by
  intro l
  induction l with
  | nil => intro i a h; simp at h
  | cons b t ih =>
    intro i a h
    cases i with
    | zero => rfl
    | succ j =>
      simp only [List.set, List.get?]
      exact ih j a (by simpa using h)

theorem get?_set_other : ∀ (l : List α) (i j : ℕ) (a : α), i ≠ j →
    (l.set i a).get? j = l.get? j := by
  intro l
  induction l with
  | nil => intro i j a _; simp
  | cons b t ih =>
    intro i j a hij
    cases i with
    | zero =>
      cases j with
      | zero => exact absurd rfl hij
      | succ j' => rfl
    | succ i' =>
      cases j with
      | zero => rfl
      | succ j' =>
        simp only [List.set, List.get?]
        exact ih i' j' a (fun h => hij (by rw [h]))

theorem sum_range_ite (f : ℕ → ℚ) : ∀ (n i : ℕ), i ≤ n →
    ((List.range n).map (fun idx => if idx < i then f idx else 0)).sum
      = ((List.range i).map f).sum := by
  intro n
  induction n with
  | zero =>
    intro i hi
    interval_cases i
    rfl
  | succ n ih =>
    intro i hi
    rw [List.range_succ, List.map_append, List.sum_append]
    rcases Nat.lt_or_ge n i with hcase | hcase
    · have hieq : i = n + 1 := by omega
      subst hieq
      rw [List.range_succ, List.map_append, List.sum_append]
      have hcongr : (List.range n).map (fun idx => if idx < n + 1 then f idx else 0)
          = (List.range n).map f := by
        apply List.map_congr_left
        intro idx hidx
        rw [if_pos (by simp at hidx; omega)]
      rw [hcongr]
      simp
    · have : ¬(n < i) := by omega
      rw [ih i hcase]
      simp [this]

theorem processRings_foldl_spec (cfg : RadarPieConfig) (scaled : List ℚ) :
    ∀ (m : ℕ) (rings : List RingInfo), m ≤ rings.length →
      ((List.range m).foldl (processRingsStep cfg scaled) rings).length = rings.length
      ∧ (∀ i, m ≤ i →
          ((List.range m).foldl (processRingsStep cfg scaled) rings).get? i = rings.get? i)
      ∧ (∀ i, i < m → ∀ r0, rings.get? i = some r0 →
          ((List.range m).foldl (processRingsStep cfg scaled) rings).get? i
            = some { r0 with
                opacity := some (ringOpacity cfg.ringMaxOpacity cfg.ringMinOpacity
                  rings.length i)
                innerRadius := some (cfg.innerRadius
                  + ((List.range i).map
                      (fun j => (scaled.get? j).getD 0 + cfg.ringPadding)).sum)
                radius := scaled.get? i }) := by
  intro m
  induction m with
  | zero =>
    intro rings _
    exact ⟨rfl, fun i _ => rfl, fun i hi => absurd hi (Nat.not_lt_zero i)⟩
  | succ m ih =>
    intro rings hm
    have hm' : m ≤ rings.length := Nat.le_of_succ_le hm
    have hmn : m < rings.length := hm
    obtain ⟨ihlen, ihkeep, ihdone⟩ := ih rings hm'
    set st := (List.range m).foldl (processRingsStep cfg scaled) rings with hst
    have hfold : (List.range (m + 1)).foldl (processRingsStep cfg scaled) rings
        = processRingsStep cfg scaled st m := by
      rw [List.range_succ, List.foldl_append, List.foldl_cons, List.foldl_nil]
    have hr0 : rings.get? m = some (rings.get ⟨m, hmn⟩) := List.get?_eq_get hmn
    set r0 := rings.get ⟨m, hmn⟩ with hr0def
    have hstm : st.get? m = some r0 := by rw [ihkeep m (le_refl m), hr0]
    have hsum : ringInnerRadiusSum cfg st m
        = ((List.range m).map (fun j => (scaled.get? j).getD 0 + cfg.ringPadding)).sum := by
      rw [ringInnerRadiusSum, ihlen]
      have hptw : (List.range rings.length).map
            (fun idx => if idx < m
              then ((st.get? idx).bind RingInfo.radius).getD 0 + cfg.ringPadding else 0)
          = (List.range rings.length).map
            (fun idx => if idx < m then (scaled.get? idx).getD 0 + cfg.ringPadding else 0) := by
        apply List.map_congr_left
        intro idx hidx
        by_cases hcase : idx < m
        · rw [if_pos hcase, if_pos hcase]
          have hidxn : idx < rings.length := by omega
          have hri : rings.get? idx = some (rings.get ⟨idx, hidxn⟩) := List.get?_eq_get hidxn
          rw [ihdone idx hcase _ hri]
          rfl
        · rw [if_neg hcase, if_neg hcase]
      rw [hptw]
      exact sum_range_ite (fun j => (scaled.get? j).getD 0 + cfg.ringPadding) rings.length m hm'
    have hstep : processRingsStep cfg scaled st m
        = st.set m { r0 with
            opacity := some (ringOpacity cfg.ringMaxOpacity cfg.ringMinOpacity rings.length m)
            innerRadius := some (cfg.innerRadius
              + ((List.range m).map (fun j => (scaled.get? j).getD 0 + cfg.ringPadding)).sum)
            radius := scaled.get? m } := by
      simp only [processRingsStep, hstm, ihlen, hsum]
    refine ⟨?_, ?_, ?_⟩
    · rw [hfold, hstep, List.length_set, ihlen]
    · intro i hi
      rw [hfold, hstep, get?_set_other _ _ _ _ (by omega), ihkeep i (by omega)]
    · intro i hi r0' hr0'
      rcases Nat.lt_succ_iff_lt_or_eq.mp hi with hlt | heq
      · rw [hfold, hstep, get?_set_other _ _ _ _ (by omega)]
        exact ihdone i hlt r0' hr0'
      · subst heq
        rw [hfold, hstep, get?_set_self _ _ _ (by rw [ihlen]; exact hmn)]
        have : r0 = r0' := by
          rw [hr0def] at hr0 ⊢
          rw [hr0] at hr0'
          exact Option.some.inj hr0'
        rw [this]

theorem mapWithIndex_get? (f : ℕ → α → β) :
    ∀ (l : List α) (s i : ℕ), (mapWithIndex f s l).get? i = (l.get? i).map (f (s + i)) := by
  intro l
  induction l with
  | nil => intro s i; simp [mapWithIndex]
  | cons a t ih =>
    intro s i
    cases i with
    | zero => rfl
    | succ j =>
      simp only [mapWithIndex, List.get?]
      rw [ih (s + 1) j, show s + 1 + j = s + (j + 1) by omega]

/-- **C6**: for a ring list of length `n`, the ring at level `L` receives —
via the in-place `forEach` — the radius produced by the Proportional Scaler
with floor `minRingRadius` applied to the weights
`itemCount * (n - level)^2 * π` against the budget
`outerRadius - innerRadius - ringPadding * (n - 1)` (`availableRadius`), and
an inner radius equal to the configured `innerRadius` plus the sum of
`(radius + ringPadding)` over all levels below `L`; the weight at level `L`
is exactly `itemCount * (n - L)^2 * π` (with `Math.PI` abstracted as `piQ`;
the statement holds for every value of it). -/
theorem C6_ring_layout (cfg : RadarPieConfig) (piQ : ℚ) (rings : List RingInfo) (L : ℕ)
    (r0 : RingInfo) (hr0 : rings.get? L = some r0) (hL : L < rings.length) :
    (processRings cfg piQ rings).get? L
      = some { r0 with
          opacity := some (ringOpacity cfg.ringMaxOpacity cfg.ringMinOpacity rings.length L)
          innerRadius := some (cfg.innerRadius
            + ((List.range L).map (fun j =>
                ((scaleProportional (ringWeights piQ rings) (availableRadius cfg rings.length)
                  cfg.minRingRadius).get? j).getD 0 + cfg.ringPadding)).sum)
          radius := (scaleProportional (ringWeights piQ rings) (availableRadius cfg rings.length)
            cfg.minRingRadius).get? L }
    ∧ (ringWeights piQ rings).get? L
        = some ((r0.itemCount : ℚ) * ((rings.length : ℚ) - (L : ℚ)) ^ 2 * piQ) := by
  constructor
  · have h := (processRings_foldl_spec cfg
      (scaleProportional (ringWeights piQ rings) (availableRadius cfg rings.length)
        cfg.minRingRadius) rings.length rings (le_refl _)).2.2 L hL r0 hr0
    simp only [processRings]
    exact h
  · rw [ringWeights, mapWithIndex_get?, hr0]
    simp

/-- Witness for `C6_ring_layout` on the concrete one-ring content. -/
theorem C6_witness :
    (ringWeights 1 exContent.rings).get? 0
      = some (((⟨"r0", 1, none, none, none⟩ : RingInfo).itemCount : ℚ)
            * ((exContent.rings.length : ℚ) - ((0 : ℕ) : ℚ)) ^ 2 * 1) :=
  (C6_ring_layout exCfg 1 exContent.rings 0 ⟨"r0", 1, none, none, none⟩
    rfl (by decide)).2

theorem map_set (f : α → β) : ∀ (l : List α) (i : ℕ) (a : α),
    (l.set i a).map f = (l.map f).set i (f a) := by
  intro l
  induction l with
  | nil => intro i a; rfl
  | cons b t ih =>
    intro i a
    cases i with
    | zero => rfl
    | succ j => simp only [List.set, List.map_cons, ih]

theorem set_self : ∀ (l : List α) (i : ℕ) (a : α), l.get? i = some a → l.set i a = l := by
  intro l
  induction l with
  | nil => intro i a h; simp at h
  | cons b t ih =>
    intro i a h
    cases i with
    | zero =>
      simp only [List.get?] at h
      rw [List.set, Option.some.inj h]
    | succ j =>
      simp only [List.get?] at h
      rw [List.set, ih j a h]

theorem eraseRing_update (r0 : RingInfo) (o : Option JSNum) (ir rad : Option ℚ) :
    eraseRing { r0 with opacity := o, innerRadius := ir, radius := rad } = eraseRing r0 := rfl

theorem processRings_erase (cfg : RadarPieConfig) (piQ : ℚ) (rings : List RingInfo) :
    (processRings cfg piQ rings).map eraseRing = rings.map eraseRing := by
  apply List.ext_get?
  intro i
  rcases Nat.lt_or_ge i rings.length with hi | hi
  · obtain ⟨hlen, _, hdone⟩ := processRings_foldl_spec cfg
      (scaleProportional (ringWeights piQ rings) (availableRadius cfg rings.length)
        cfg.minRingRadius) rings.length rings (le_refl _)
    have hr0 : rings.get? i = some (rings.get ⟨i, hi⟩) := List.get?_eq_get hi
    have h := hdone i hi _ hr0
    simp only [processRings]
    rw [List.get?_map, List.get?_map, h, hr0]
    rfl
  · have h1 : (processRings cfg piQ rings).get? i = none := by
      apply List.get?_eq_none.mpr
      obtain ⟨hlen, _, _⟩ := processRings_foldl_spec cfg
        (scaleProportional (ringWeights piQ rings) (availableRadius cfg rings.length)
          cfg.minRingRadius) rings.length rings (le_refl _)
      simp only [processRings]
      rw [hlen]
      exact hi
    have h2 : rings.get? i = none := List.get?_eq_none.mpr hi
    rw [List.get?_map, List.get?_map, h1, h2]

theorem segments_mapM_erase (rings : List RingInfo) (subArc : ArcParams) :
    ∀ (l l' : List SegmentQ),
      l.mapM (fun seg => (deriveSegmentArc rings subArc seg).map
        (fun ap => { seg with arcParams := some ap })) = some l' →
      l'.map eraseSegment = l.map eraseSegment := by
  intro l
  induction l with
  | nil =>
    intro l' h
    simp only [List.mapM_nil, pure, Option.some.injEq] at h
    rw [← h]
  | cons a t ih =>
    intro l' h
    rw [List.mapM_cons] at h
    rcases hda : deriveSegmentArc rings subArc a with _ | ap
    · rw [hda] at h
      simp at h
    · rw [hda] at h
      rcases hmt : t.mapM (fun seg => (deriveSegmentArc rings subArc seg).map
          (fun ap => { seg with arcParams := some ap })) with _ | t'
      · rw [hmt] at h
        simp at h
      · rw [hmt] at h
        simp at h
        rw [← h, List.map_cons, List.map_cons, ih t' hmt]
        rfl

theorem annotateSubSlice_erase (cfg : RadarPieConfig) (rings : List RingInfo) (arc : PieArc)
    (sub sub' : SubSliceQ) (h : annotateSubSlice cfg rings arc sub = some sub') :
    eraseSubSlice sub' = eraseSubSlice sub := by
  simp only [annotateSubSlice] at h
  rcases hm : sub.segments.mapM (fun seg =>
      (deriveSegmentArc rings
        ⟨arc.startAngle, arc.endAngle, arc.padAngle, cfg.innerRadius, cfg.outerRadius⟩
        seg).map
      (fun ap => { seg with arcParams := some ap })) with _ | segs
  · rw [hm] at h
    exact Option.noConfusion h
  · rw [hm] at h
    have hsub' := Option.some.inj h
    rw [← hsub']
    simp only [eraseSubSlice]
    rw [segments_mapM_erase _ _ _ _ hm]

theorem updateSubSliceIn_erase (slices slices' : List SliceQ) (sliceId subId : String)
    (upd : SubSliceQ → Option SubSliceQ)
    (hupd : ∀ ss ss', upd ss = some ss' → eraseSubSlice ss' = eraseSubSlice ss)
    (h : updateSubSliceIn slices sliceId subId upd = some slices') :
    slices'.map eraseSlice = slices.map eraseSlice := by
  simp only [updateSubSliceIn] at h
  split at h
  · exact Option.noConfusion h
  split at h
  · exact Option.noConfusion h
  split at h
  · exact Option.noConfusion h
  split at h
  · exact Option.noConfusion h
  split at h
  · exact Option.noConfusion h
  rename_i x1 i hfind x2 s hget x3 j hfind2 x4 ss hget2 x5 ss' hupd'
  have hsl := Option.some.inj h
  rw [← hsl, map_set]
  have herase : eraseSlice { s with subSlices := s.subSlices.set j ss' } = eraseSlice s := by
    simp only [eraseSlice]
    rw [map_set, hupd ss ss' hupd']
    rw [set_self]
    rw [List.get?_map, hget2]
    rfl
  rw [herase]
  apply set_self
  rw [List.get?_map, hget]
  rfl

theorem foldlM_annotate_erase (cfg : RadarPieConfig) (rings : List RingInfo) :
    ∀ (pairs : List (CatInfoSubSlice × PieArc)) (slices slices' : List SliceQ),
      pairs.foldlM (fun sl pair => updateSubSliceIn sl pair.1.sliceId pair.1.id
        (annotateSubSlice cfg rings pair.2)) slices = some slices' →
      slices'.map eraseSlice = slices.map eraseSlice := by
  intro pairs
  induction pairs with
  | nil =>
    intro slices slices' h
    simp only [List.foldlM_nil, pure, Option.some.injEq] at h
    rw [h]
  | cons p ps ih =>
    intro slices slices' h
    rw [List.foldlM_cons] at h
    rcases h1 : updateSubSliceIn slices p.1.sliceId p.1.id (annotateSubSlice cfg rings p.2)
      with _ | mid
    · rw [h1] at h
      exact Option.noConfusion h
    · rw [h1] at h
      have hmid := updateSubSliceIn_erase slices mid p.1.sliceId p.1.id _
        (fun ss ss' hss => annotateSubSlice_erase cfg rings p.2 ss ss' hss) h1
      rw [ih mid slices' h, hmid]

/-- **C5** (amended): the `RadarPie` constructor stores the caller's content
tree without copying (RadarPie.ts line 140) and annotates it in place, so
after construction the caller's structure *is* the annotated layout; what the
build preserves is the content skeleton: erasing every computed annotation
(arc parameters, ring opacity/radii, item positions) from the built tree
yields exactly the erased input tree — ids, labels, item counts, dummy flags
and item lists are never changed. -/
theorem C5_build_annotates_in_place (cfg : RadarPieConfig) (piQ : ℚ)
    (content c' : RadarContentQ) (h : radarPieBuild cfg piQ content = some c') :
    eraseContent c' = eraseContent content := by
  simp only [radarPieBuild] at h
  rcases hfold : (content.subSlices.zip
      (subSliceAngles (content.subSlices.map (fun s => s.itemCount)) cfg.minSubSliceAngle
        cfg.subSlicePadAngle)).foldlM
      (fun slices pair => updateSubSliceIn slices pair.1.sliceId pair.1.id
        (annotateSubSlice cfg (processRings cfg piQ content.rings) pair.2))
      content.slices with _ | slices'
  · rw [hfold] at h
    exact Option.noConfusion h
  · rw [hfold] at h
    have hc' := Option.some.inj h
    rw [← hc']
    simp only [eraseContent]
    rw [processRings_erase, foldlM_annotate_erase cfg (processRings cfg piQ content.rings)
      _ content.slices slices' hfold]

theorem exRings_eq : processRings exCfg 1 exContent.rings = exBuilt.rings := by
  norm_num [processRings, processRingsStep, ringInnerRadiusSum, ringWeights, availableRadius,
    scaleProportional, scaleLoop, poolSum, clampedCount, scaleShare, ringOpacity, jsDiv, jsAddFin,
    exContent, exBuilt, exCfg, mapWithIndex, List.range_succ, List.foldl_cons, List.foldl_nil,
    List.set]

theorem exArcs_eq : subSliceAngles [1] 10 0
    = [{ value := 360, startAngle := 0, endAngle := 360, padAngle := 0 }] := by
  norm_num [subSliceAngles, d3Pie, d3PieGo, scaleProportional, scaleLoop, poolSum,
    clampedCount, scaleShare]

theorem exBuild_eq : radarPieBuild exCfg 1 exContent = some exBuilt := by
  have h1 := exRings_eq
  have h2 := exArcs_eq
  simp only [radarPieBuild]
  rw [show exContent.subSlices.map (fun s => s.itemCount) = [1] by rfl]
  rw [show exCfg.minSubSliceAngle = 10 from rfl, show exCfg.subSlicePadAngle = 0 from rfl]
  rw [h2, show exContent.rings = exContent.rings from rfl]
  rw [h1]
  norm_num [exContent, exBuilt, List.foldlM, updateSubSliceIn, annotateSubSlice, deriveSegmentArc,
    List.findIdx?, exCfg, List.set, List.mapM_cons, List.mapM_nil, List.mapM.loop, Option.bind,
    Option.map]

/-- **C5** counterexample to the claim as stated: on a concrete one-ring,
one-slice content snapshot the build succeeds but does *not* return the
caller's input unchanged — the constructor mutates the caller's tree in place
(RadarPie.ts line 140 stores the input reference without a copy), so the
"input structure" after construction carries ring radii/opacity and arc
parameters that were absent before. -/
theorem C5_counterexample :
    (radarPieBuild exCfg 1 exContent).isSome = true
    ∧ radarPieBuild exCfg 1 exContent ≠ some exContent := by
  rw [exBuild_eq]
  refine ⟨rfl, fun h => ?_⟩
  have h2 := Option.some.inj h
  have h3 := congrArg RadarContentQ.rings h2
  simp only [exBuilt, exContent] at h3
  exact absurd (congrArg RingInfo.opacity (List.head_eq_of_cons_eq h3))
    (fun hop => Option.noConfusion hop)

/-- Witness for `C5_build_annotates_in_place` on the concrete one-ring
content. -/
theorem C5_witness : eraseContent exBuilt = eraseContent exContent :=
  C5_build_annotates_in_place exCfg 1 exContent exBuilt exBuild_eq

/-- **C8**: for every slice (given its first sub-slice's start angle, last
sub-slice's end angle and first sub-slice's radii, with a nonnegative label
radius), the computed slice label point lies at distance
`firstOuter + sliceLabelDistance` from the origin on the ray of the overall
mid-angle `(firstStart + lastEnd) / 2`, and the divider line is the radial
segment at the first sub-slice's start angle from radius `firstInner` to
radius `firstOuter + sliceDividerOutFlowLength` (its two endpoints are
collinear with the origin). -/
theorem C8_slice_label (d out s e ir orr : ℝ) (h : 0 ≤ orr + d) :
    SliceLabelGeomSpec d out s e ir orr (sliceLabelGeom d out s e ir orr) := by
  have hc : ∀ t : ℝ, Real.cos (t - Real.pi / 2) = Real.sin t := by
    intro t
    rw [Real.cos_sub, Real.cos_pi_div_two, Real.sin_pi_div_two]
    ring
  have hs : ∀ t : ℝ, Real.sin (t - Real.pi / 2) = -Real.cos t := by
    intro t
    rw [Real.sin_sub, Real.cos_pi_div_two, Real.sin_pi_div_two]
    ring
  have hmid : s + (e - s) / 2 = (s + e) / 2 := by ring
  refine ⟨?_, ?_, ?_, ?_, ?_, ?_⟩
  · simp only [sliceLabelGeom]
    exact hmid
  · simp only [sliceLabelGeom, radialPoint, hc, hs, hmid, Prod.mk.injEq]
    constructor <;> ring
  · simp only [sliceLabelGeom]
    have hpyth := Real.sin_sq_add_cos_sq (s + (e - s) / 2 - Real.pi / 2)
    have hxy : (Real.cos (s + (e - s) / 2 - Real.pi / 2) * (orr + d)) ^ 2
        + (Real.sin (s + (e - s) / 2 - Real.pi / 2) * (orr + d)) ^ 2 = (orr + d) ^ 2 := by
      nlinarith [hpyth]
    rw [hxy, Real.sqrt_sq h]
  · simp only [sliceLabelGeom, radialPoint, hc, hs, Prod.mk.injEq]
    constructor <;> ring
  · simp only [sliceLabelGeom, radialPoint, hc, hs, Prod.mk.injEq]
    constructor <;> ring
  · simp only [sliceLabelGeom]
    ring

/-- Witness for `C8_slice_label` at the concrete slice with start angle `0`,
end angle `0`, inner radius `1`, outer radius `2`, label distance `3` and
divider outflow `0`. -/
theorem C8_witness : SliceLabelGeomSpec 3 0 0 0 1 2 (sliceLabelGeom 3 0 0 0 1 2) :=
  C8_slice_label 3 0 0 0 1 2 (by norm_num)

end RadarChart
